import Mathlib

/-!
A shallow embedding of `resolver.go` from the kong flag-resolution core: the
name-mapping utility (`snakeCase` and the underscore form), the JSON
structured-document resolver, and the environment resolver with its one-time
command-path walk (`resolveArgs` / `visitValue`), together with theorems about
the properties the specification asserts of them.

Go strings are modelled as lists of characters; the ASCII fragment of the
Go standard library's string and character operations suffices for the flag
names and documents occurring here, and each stdlib operation the source uses
is modelled by a definition named after it below.
-/

set_option maxRecDepth 8000

namespace Kong

/-- Go strings, modelled as lists of characters. -/
abbrev Str := List Char

/-- The character list of a Lean string literal, used to write Go string
values concisely. -/
def chars (s : String) : Str := s.data

/-- Models Go `strings.ReplaceAll(s, old, new)` for single-character patterns,
the only form the source uses (line 42 replaces "-" with "_"). -/
def goReplaceAll (old new : Char) (s : Str) : Str :=
  s.map (fun c => if c = old then new else c)

/-- Models the word-separator test used by Go `strings.Title`: in the ASCII
range every character other than the alphanumerics and the underscore
separates words. Non-ASCII characters (where Go consults Unicode tables) do
not occur in this development and are treated as non-separators. -/
def goIsSeparator (c : Char) : Bool :=
  let n := c.toNat
  if n ≤ 0x7F then
    if (48 ≤ n ∧ n ≤ 57) ∨ (97 ≤ n ∧ n ≤ 122) ∨ (65 ≤ n ∧ n ≤ 90) ∨ n = 95 then
      false
    else
      true
  else
    false

/-- One character of Go `strings.Title`: a character that begins a word (its
predecessor is a separator) is mapped to title case, which in the ASCII range
is upper case. -/
def goTitleStep (prev c : Char) : Char :=
  if goIsSeparator prev then c.toUpper else c

/-- The character fold of Go `strings.Title`, carrying the previous
character. -/
def goTitleAux : Char → Str → Str
  | _, [] => []
  | prev, c :: cs => goTitleStep prev c :: goTitleAux c cs

/-- Models Go `strings.Title(s)`: the carried previous character starts as a
space, so the first character of `s` begins a word. -/
def goTitle (s : Str) : Str := goTitleAux ' ' s

/-- Models Go `strings.Split(s, sep)` for a single-character separator (the
source splits on "-" at line 68 and on "." at line 51). Splitting the empty
string yields one empty part, and every separator occurrence contributes a
part boundary. -/
def goSplit (sep : Char) : Str → List Str
  | [] => [[]]
  | c :: cs =>
    if c = sep then
      [] :: goSplit sep cs
    else
      match goSplit sep cs with
      | [] => [[c]]
      | r :: rs => (c :: r) :: rs

/-- Models Go `strings.Join(parts, "")` (line 68 joins with the empty
separator). -/
def goJoin : List Str → Str
  | [] => []
  | s :: rest => s ++ goJoin rest

/-- `snakeCase` (resolver.go lines 67-70): title-case the name, remove the
hyphens by splitting on "-" and joining, then lower-case the first byte.
When the joined string is empty — the name has no character other than '-' —
the Go expression `name[:1]` is a slice out of bounds and the call panics;
the panic is modelled as `none`. -/
def snakeCase (name : Str) : Option Str :=
  match goJoin (goSplit '-' (goTitle name)) with
  | [] => none
  | c :: cs => some (c.toLower :: cs)

/-- A decoded JSON document value as Go `encoding/json` produces inside
`map[string]any`: JSON `null` decodes to the Go nil interface value, which is
also the value the resolver hands back for "no value"; objects decode to
`map[string]any`, modelled as association lists with distinct keys; numbers
are modelled as integers (Go decodes them to `float64`; the representation
plays no role in the lookup semantics verified here). -/
inductive JSONValue where
  | null
  | boolean (b : Bool)
  | number (n : Int)
  | string (s : Str)
  | obj (fields : List (Str × JSONValue))
  | arr (elems : List JSONValue)

/-- Go map indexing `values[key]` in its comma-ok form, on the association
list representing a decoded object. -/
def lookupKey : List (Str × JSONValue) → Str → Option JSONValue
  | [], _ => none
  | (k, v) :: rest, key => if k = key then some v else lookupKey rest key

/-- The dotted-path loop of the JSON resolver (lines 50-60): starting from the
whole document, each path segment requires the current value to be an object
holding the segment as a key; at the first non-object value or absent key the
loop returns the Go nil value (`JSONValue.null`); when the parts run out the
value reached is returned. -/
def walkPath : JSONValue → List Str → JSONValue
  | raw, [] => raw
  | JSONValue.obj fields, part :: rest =>
    match lookupKey fields part with
    | some v => walkPath v rest
    | none => JSONValue.null
  | _, _ :: _ => JSONValue.null

/-- The resolve closure built by `JSON` (lines 41-62), applied to a flag name:
try the underscore form of the name as a top-level key, then the `snakeCase`
form, then walk the underscore form split on "." through nested objects.
The Go local `name` (the underscore form) is written out at each use. `none`
models the panic propagating out of `snakeCase` at line 43; `some v` models
the Go return `(v, nil)` — the JSON resolver returns a nil error on every
path, and a failed lookup returns the Go nil value, `JSONValue.null`. -/
def jsonResolve (values : List (Str × JSONValue)) (flagName : Str) : Option JSONValue :=
  match snakeCase flagName with
  | none => none
  | some snakeCaseName =>
    match lookupKey values (goReplaceAll '-' '_' flagName) with
    | some raw => some raw
    | none =>
      match lookupKey values snakeCaseName with
      | some raw => some raw
      | none =>
        some (walkPath (JSONValue.obj values) (goSplit '.' (goReplaceAll '-' '_' flagName)))

/-- The `JSON` constructor (lines 35-65). The `encoding/json` decoder is an
external collaborator; its outcome on the supplied reader is taken as the
parameter: `Except.error e` when decoding the stream fails, `Except.ok values`
when it yields the decoded top-level object. On failure the constructor
returns the decode error and no resolver; on success it returns the resolve
closure over the decoded document and no error. -/
def JSON (decodeResult : Except Str (List (Str × JSONValue))) :
    Except Str (Str → Option JSONValue) :=
  match decodeResult with
  | Except.error err => Except.error err
  | Except.ok values => Except.ok (fun flagName => jsonResolve values flagName)

/-- The ambient process environment, an association list from variable name to
value; a variable set to the empty string is present. -/
abbrev EnvMap := List (Str × Str)

/-- Models `os.LookupEnv` in its comma-ok form. -/
def osLookupEnv : EnvMap → Str → Option Str
  | [], _ => none
  | (k, v) :: rest, key => if k = key then some v else osLookupEnv rest key

/-- Modelled from the spec: the `Tag` metadata of flags and values — declared
outside this file — reduced to the only field the resolver reads, the ordered
list `Envs` of candidate environment-variable names (spec section 3). -/
structure Tag where
  envs : List Str

/-- Modelled from the spec: a declared `Flag` — declared outside this file —
reduced to the fields the resolvers read, its canonical `Name` and its `Tag`
(spec section 3). -/
structure Flag where
  name : Str
  tag : Tag

/-- Modelled from the spec: a `Value` (positional or catch-all argument entry,
declared outside this file): a nillable `Tag`, and the collaborator capability
`Value.Parse` (spec section 6) — parsing a one-token stream holding a raw
string into the value's target — reduced to the parse outcome on the raw
string, `Except.ok` on success and `Except.error` with the parser's message on
failure. The token construction and the target mutation are not observed by
any claim verified here. -/
structure Value where
  tag : Option Tag
  parse : Str → Except Str Unit

/-- Modelled from the spec: a `Command` — declared outside this file — with
its ordered positional values and its optional catch-all argument value (spec
section 3). -/
structure Command where
  positional : List Value
  argument : Option Value

/-- Modelled from the spec: one `Path` segment of the resolved command chain,
holding a `Command` or nil (spec section 3). -/
structure Path where
  command : Option Command

/-- Modelled from the spec: the `Context` of one invocation, its ordered path
segments (spec section 3). -/
structure Context where
  path : List Path

/-- The error wrapping of `visitValue` (line 124): models
`fmt.Errorf("%s (from envar %s=%q)", err, env, envar)`; the `%q` verb renders
the value inside double quotes (no escaping is needed for the values used
here). -/
def wrapEnvError (err env envar : Str) : Str :=
  err ++ chars " (from envar " ++ env ++ chars "=" ++ ['"'] ++ envar ++ ['"'] ++ chars ")"

/-- The loop of `visitValue` (lines 117-126): for each candidate variable in
order, a variable that is not set is skipped; a set variable's raw value is
parsed into the value's target, a parse failure returning the wrapped error at
once and a success continuing with the remaining variables. -/
def applyEnvs (envm : EnvMap) (value : Value) : List Str → Except Str Unit
  | [] => Except.ok ()
  | env :: rest =>
    match osLookupEnv envm env with
    | none => applyEnvs envm value rest
    | some envar =>
      match value.parse envar with
      | Except.error err => Except.error (wrapEnvError err env envar)
      | Except.ok _ => applyEnvs envm value rest

/-- `visitValue` (lines 116-128). The Go code reads `value.Tag.Envs` without a
nil check; its caller only reaches it with a non-nil tag for positionals
(guarded at line 104), no input of this development reaches the nil case, and
it is modelled as a no-op. -/
def visitValue (envm : EnvMap) (value : Value) : Except Str Unit :=
  match value.tag with
  | some tag => applyEnvs envm value tag.envs
  | none => Except.ok ()

/-- The per-path body of `resolveArgs` (lines 99-111): segments without a
command are skipped, positionals with a nil tag are skipped, and the results
of the `visitValue` calls at lines 107 and 110 are discarded by the Go code —
the discarded calls appear here as `_` bindings. -/
def resolveArgsPath (envm : EnvMap) (path : Path) : Unit :=
  match path.command with
  | none => ()
  | some cmd =>
    let _ := cmd.positional.map (fun positional =>
      match positional.tag with
      | none => ()
      | some _ =>
        let _ := visitValue envm positional
        ())
    match cmd.argument with
    | none => ()
    | some arg =>
      let _ := visitValue envm arg
      ()

/-- `resolveArgs` (lines 98-114): walks every path segment and returns nil
unconditionally (line 113); no `visitValue` error reaches its return value. -/
def resolveArgs (envm : EnvMap) (paths : List Path) : Except Str Unit :=
  let _ := paths.map (resolveArgsPath envm)
  Except.ok ()

/-- The mutable closure state of one `EnvResolver` instance: the Go boolean
`argsResolved` (line 81), plus a ghost counter recording how many times the
once-guarded block at lines 83-86 has executed — the counter only records the
executions used to state the exactly-once property, it does not influence
them. -/
structure EnvState where
  argsResolved : Bool
  walkCount : Nat

/-- The closure state of a freshly constructed environment resolver (line 81):
the walk has not run. -/
def EnvResolver.init : EnvState := { argsResolved := false, walkCount := 0 }

/-- The flag loop of the `EnvResolver` closure (lines 87-94): the first set
variable of `flag.Tag.Envs`, in declared order, wins — even when its value is
the empty string — and `none` models the fall-through `return nil, nil`. -/
def lookupEnvs (envm : EnvMap) : List Str → Option Str
  | [] => none
  | env :: rest =>
    match osLookupEnv envm env with
    | some envar => some envar
    | none => lookupEnvs envm rest

/-- One call to the `EnvResolver` closure (lines 82-95): when `argsResolved`
is still false, `resolveArgs` runs on the context's path — its always-nil
result is discarded at line 84 — and the gate is set; the flag's environment
lookup then produces the returned pair `(value, error)`, whose error component
is nil on every return path of the Go code. -/
def EnvResolver.resolve (s : EnvState) (envm : EnvMap) (context : Context) (flag : Flag) :
    EnvState × (Option Str × Option Str) :=
  let s' :=
    if !s.argsResolved then
      let _ := resolveArgs envm context.path
      { argsResolved := true, walkCount := s.walkCount + 1 }
    else
      s
  (s', (lookupEnvs envm flag.tag.envs, none))

/-- A finite sequence of `Resolve` calls through one environment-resolver
instance, threading its closure state. -/
def runResolves (envm : EnvMap) (context : Context) : EnvState → List Flag → EnvState
  | s, [] => s
  | s, flag :: rest => runResolves envm context (EnvResolver.resolve s envm context flag).1 rest

/-- The decoding of the document text with one nested section, used by several
claims: key "a" holds an object whose key "b" holds the string "z". -/
def docNested : List (Str × JSONValue) :=
  [(chars "a", JSONValue.obj [(chars "b", JSONValue.string (chars "z"))])]

/-- The decoding of the document holding both a top-level underscore-form key
"a_b" with value 1 and a nested section "a" whose key "b" holds 2. -/
def docShadow : List (Str × JSONValue) :=
  [(chars "a_b", JSONValue.number 1),
   (chars "a", JSONValue.obj [(chars "b", JSONValue.number 2)])]

/-- The decoding of the document whose sole key "my_flag" holds JSON null. -/
def docNullFlag : List (Str × JSONValue) :=
  [(chars "my_flag", JSONValue.null)]

/-- A positional argument whose environment list is ["PORT"] and whose target
rejects every raw value with the message "expected int". -/
def portValue : Value :=
  { tag := some { envs := [chars "PORT"] },
    parse := fun _ => Except.error (chars "expected int") }

/-- An environment in which PORT is set to the unparseable value "abc". -/
def portEnv : EnvMap := [(chars "PORT", chars "abc")]

/-- A path segment whose command declares the one positional above and no
catch-all argument. -/
def portPath : Path :=
  { command := some { positional := [portValue], argument := none } }

/-- A flag with no environment variables declared. -/
def plainFlag : Flag := { name := chars "flag", tag := { envs := [] } }

/-- A flag whose candidate environment variables are FOO then BAR. -/
def fooBarFlag : Flag := { name := chars "flag", tag := { envs := [chars "FOO", chars "BAR"] } }

theorem goSplit_ne_nil (sep : Char) (s : Str) : goSplit sep s ≠ [] := by
  cases s with
  | nil => simp [goSplit]
  | cons c cs =>
    simp only [goSplit]
    split
    · simp
    · split <;> simp

theorem goJoin_goSplit (sep : Char) (s : Str) :
    goJoin (goSplit sep s) = s.filter (fun c => !(c == sep)) := by
  induction s with
  | nil => rfl
  | cons c cs ih =>
    by_cases h : c = sep
    · subst h
      simp only [goSplit, if_pos rfl, goJoin, List.filter_cons]
      simpa using ih
    · simp only [goSplit, if_neg h]
      have hb : (c == sep) = false := by simp [h]
      cases hg : goSplit sep cs with
      | nil => exact absurd hg (goSplit_ne_nil sep cs)
      | cons r rs =>
        rw [hg] at ih
        simp only [goJoin] at ih ⊢
        rw [List.filter_cons, hb]
        simpa [List.cons_append] using congrArg (c :: ·) ih

theorem ofNat_sub_ne_hyphen (n : Nat) (h1 : 97 ≤ n) (h2 : n ≤ 122) :
    Char.ofNat (n - 32) ≠ '-' := by
  intro heq
  have hval : (Char.ofNat (n - 32)).toNat = n - 32 := by
    have hv : (n - 32).isValidChar := Or.inl (by omega)
    simp [Char.ofNat, hv, Char.toNat, Char.ofNatAux, UInt32.toNat, BitVec.toNat_ofNatLt]
  rw [heq] at hval
  have h45 : ('-').toNat = 45 := by decide
  omega

theorem toUpper_ne_hyphen {c : Char} (h : c ≠ '-') : c.toUpper ≠ '-' := by
  have hdef : c.toUpper
      = if c.toNat ≥ 97 ∧ c.toNat ≤ 122 then Char.ofNat (c.toNat - 32) else c := rfl
  rw [hdef]
  split
  · next hc => exact ofNat_sub_ne_hyphen c.toNat hc.1 hc.2
  · exact h

theorem goTitleStep_ne_hyphen (prev : Char) {c : Char} (h : c ≠ '-') :
    goTitleStep prev c ≠ '-' := by
  unfold goTitleStep
  split
  · exact toUpper_ne_hyphen h
  · exact h

theorem goTitleStep_hyphen (prev : Char) : goTitleStep prev '-' = '-' := by
  unfold goTitleStep
  split
  · decide
  · rfl

theorem goTitleAux_exists_ne (l : Str) : ∀ prev : Char, (∃ c ∈ l, c ≠ '-') →
    ∃ c ∈ goTitleAux prev l, c ≠ '-' := by
  induction l with
  | nil =>
    intro prev h
    obtain ⟨c, hc, _⟩ := h
    exact absurd hc (List.not_mem_nil c)
  | cons a as ih =>
    intro prev h
    by_cases ha : a = '-'
    · subst ha
      obtain ⟨c, hc, hne⟩ := h
      rcases List.mem_cons.mp hc with h1 | hmem
      · exact absurd h1 hne
      · obtain ⟨d, hd, hdne⟩ := ih '-' ⟨c, hmem, hne⟩
        exact ⟨d, List.mem_cons_of_mem _ hd, hdne⟩
    · exact ⟨goTitleStep prev a, List.mem_cons_self _ _, goTitleStep_ne_hyphen prev ha⟩

theorem goTitleAux_all_hyphen (l : Str) : ∀ prev : Char, (∀ c ∈ l, c = '-') →
    ∀ c ∈ goTitleAux prev l, c = '-' := by
  induction l with
  | nil =>
    intro prev _ c hc
    exact absurd hc (List.not_mem_nil c)
  | cons a as ih =>
    intro prev h c hc
    have ha : a = '-' := h a (List.mem_cons_self _ _)
    simp only [goTitleAux] at hc
    rcases List.mem_cons.mp hc with h1 | hmem
    · rw [h1, ha]
      exact goTitleStep_hyphen prev
    · exact ih a (fun x hx => h x (List.mem_cons_of_mem _ hx)) c hmem

theorem snakeCase_isSome {name : Str} (h : ∃ c ∈ name, c ≠ '-') :
    (snakeCase name).isSome = true := by
  unfold snakeCase
  obtain ⟨d, hd, hdne⟩ := goTitleAux_exists_ne name ' ' h
  have hmem : d ∈ goJoin (goSplit '-' (goTitle name)) := by
    rw [goJoin_goSplit]
    exact List.mem_filter.mpr ⟨hd, by simp [hdne]⟩
  cases hj : goJoin (goSplit '-' (goTitle name)) with
  | nil =>
    rw [hj] at hmem
    exact absurd hmem (List.not_mem_nil d)
  | cons c cs => rfl

theorem snakeCase_none {name : Str} (h : ∀ c ∈ name, c = '-') :
    snakeCase name = none := by
  unfold snakeCase
  have hfil : (goTitle name).filter (fun c => !(c == '-')) = [] := by
    refine List.filter_eq_nil_iff.mpr ?_
    intro a ha
    have := goTitleAux_all_hyphen name ' ' h a ha
    simp [this]
  have hj : goJoin (goSplit '-' (goTitle name)) = [] := by
    rw [goJoin_goSplit, hfil]
  rw [hj]

theorem jsonResolve_none {values : List (Str × JSONValue)} {name : Str}
    (h : snakeCase name = none) : jsonResolve values name = none := by
  simp only [jsonResolve]
  rw [h]

theorem jsonResolve_isSome {values : List (Str × JSONValue)} {name : Str}
    (h : (snakeCase name).isSome = true) : (jsonResolve values name).isSome = true := by
  cases hs : snakeCase name with
  | none =>
    rw [hs] at h
    simp at h
  | some s =>
    cases h1 : lookupKey values (goReplaceAll '-' '_' name) with
    | some raw => simp [jsonResolve, hs, h1]
    | none =>
      cases h2 : lookupKey values s with
      | some raw => simp [jsonResolve, hs, h1, h2]
      | none => simp [jsonResolve, hs, h1, h2]

theorem resolve_of_resolved (s : EnvState) (hs : s.argsResolved = true)
    (envm : EnvMap) (context : Context) (flag : Flag) :
    (EnvResolver.resolve s envm context flag).1 = s := by
  simp [EnvResolver.resolve, hs]

theorem runResolves_of_resolved (envm : EnvMap) (context : Context) (s : EnvState)
    (hs : s.argsResolved = true) (rest : List Flag) : runResolves envm context s rest = s := by
  induction rest with
  | nil => rfl
  | cons f fs ih =>
    simp only [runResolves, resolve_of_resolved s hs envm context f]
    exact ih

theorem lookupEnvs_none (envm : EnvMap) (envs : List Str)
    (h : ∀ x ∈ envs, osLookupEnv envm x = none) : lookupEnvs envm envs = none := by
  induction envs with
  | nil => rfl
  | cons e rest ih =>
    simp only [lookupEnvs]
    rw [h e (List.mem_cons_self _ _)]
    exact ih (fun x hx => h x (List.mem_cons_of_mem _ hx))

theorem lookupEnvs_first (envm : EnvMap) (pre post : List Str) (e v : Str)
    (hpre : ∀ x ∈ pre, osLookupEnv envm x = none) (he : osLookupEnv envm e = some v) :
    lookupEnvs envm (pre ++ e :: post) = some v := by
  induction pre with
  | nil =>
    simp only [List.nil_append, lookupEnvs]
    rw [he]
  | cons p ps ih =>
    simp only [List.cons_append, lookupEnvs]
    rw [hpre p (List.mem_cons_self _ _)]
    exact ih (fun x hx => hpre x (List.mem_cons_of_mem _ hx))

/-- Claim C1 counterexample: with the document whose key "a" holds the object
holding "b" with value "z", and the flag named "a-b" (no top-level "a_b" or
"aB" key), the resolver returns the Go nil value — "no value" — and not the
string "z": the dotted-path walk splits the underscore form "a_b" on ".",
which contains no dot, so the single segment "a_b" is looked up at top level
and is absent. -/
theorem c1_counterexample :
    jsonResolve docNested (chars "a-b") = some JSONValue.null ∧
    jsonResolve docNested (chars "a-b") ≠ some (JSONValue.string (chars "z")) := by
  refine ⟨rfl, ?_⟩
  intro h
  have h1 : jsonResolve docNested (chars "a-b") = some JSONValue.null := rfl
  rw [h1] at h
  exact JSONValue.noConfusion (Option.some.inj h)

/-- Claim C1 amended: the nested mapping of the document is addressed by a
dot-separated flag name, not a hyphenated one: for the flag named "a.b" the
resolver walks the nested mapping and returns "z", while for the flag named
"a-b" — whose hyphen becomes an underscore, not a dot — it returns the Go nil
value, "no value". -/
theorem c1_amended :
    jsonResolve docNested (chars "a.b") = some (JSONValue.string (chars "z")) ∧
    jsonResolve docNested (chars "a-b") = some JSONValue.null :=
  ⟨rfl, rfl⟩

/-- Claim C2 (code bug): with PORT set to the unparseable value "abc" and a
positional argument whose target rejects it, `visitValue` produces the wrapped
assignment error naming the variable and the raw value, but `resolveArgs`
discards that result and returns ok, and a Resolve call on the same context
returns a nil error component — the failure never reaches the caller of
Resolve. -/
theorem c2_error_discarded :
    visitValue portEnv portValue
      = Except.error (wrapEnvError (chars "expected int") (chars "PORT") (chars "abc")) ∧
    resolveArgs portEnv [portPath] = Except.ok () ∧
    (EnvResolver.resolve EnvResolver.init portEnv ⟨[portPath]⟩ plainFlag).2.2 = none :=
  ⟨rfl, rfl, rfl⟩

/-- Claim C3 counterexample: the resolver's outcome for the document whose key
"my_flag" holds JSON null, resolved at flag name "my-flag", is identical to
its outcome for the empty document — JSON null decodes to the Go nil interface
value, the same value the resolver returns for "no value" — so the two
outcomes are not distinguishable. -/
theorem c3_counterexample :
    jsonResolve docNullFlag (chars "my-flag") = jsonResolve [] (chars "my-flag") :=
  rfl

/-- Claim C3 amended: a present key is distinguishable from an absent one only
when its value is not null: the document holding "my_flag" with JSON null and
the empty document both resolve "my-flag" to the Go nil value with a nil
error, while a document holding "my_flag" with the string "x" resolves to an
outcome different from the empty document's. -/
theorem c3_amended :
    jsonResolve docNullFlag (chars "my-flag") = some JSONValue.null ∧
    jsonResolve [] (chars "my-flag") = some JSONValue.null ∧
    jsonResolve [(chars "my_flag", JSONValue.string (chars "x"))] (chars "my-flag")
      ≠ jsonResolve [] (chars "my-flag") := by
  refine ⟨rfl, rfl, ?_⟩
  intro h
  have h1 : jsonResolve [(chars "my_flag", JSONValue.string (chars "x"))] (chars "my-flag")
      = some (JSONValue.string (chars "x")) := rfl
  have h2 : jsonResolve [] (chars "my-flag") = some JSONValue.null := rfl
  rw [h1, h2] at h
  exact JSONValue.noConfusion (Option.some.inj h)

/-- Claim C4: across any finite nonempty sequence of Resolve calls on one
freshly constructed environment-resolver instance, the command-path walk
executes exactly once: the fresh state has walk count zero, the first call
trips the `argsResolved` gate and raises the ghost walk counter to one, and
the state reached after any sequence of further calls still has walk count
one. -/
theorem c4_walk_exactly_once (envm : EnvMap) (context : Context) (flag : Flag)
    (rest : List Flag) :
    EnvResolver.init.walkCount = 0 ∧
    (EnvResolver.resolve EnvResolver.init envm context flag).1.argsResolved = true ∧
    (EnvResolver.resolve EnvResolver.init envm context flag).1.walkCount = 1 ∧
    (runResolves envm context
      (EnvResolver.resolve EnvResolver.init envm context flag).1 rest).walkCount = 1 := by
  refine ⟨rfl, rfl, rfl, ?_⟩
  have hstate : (EnvResolver.resolve EnvResolver.init envm context flag).1
      = { argsResolved := true, walkCount := 1 } := rfl
  rw [hstate, runResolves_of_resolved envm context _ rfl rest]

/-- Claim C5: with both the top-level key "a_b" holding 1 and the nested
section "a" holding "b" with 2 present in the same document, the top-level
underscore-form key wins outright: the flag named "a-b" resolves to 1 and not
to 2. -/
theorem c5_top_level_wins :
    jsonResolve docShadow (chars "a-b") = some (JSONValue.number 1) ∧
    jsonResolve docShadow (chars "a-b") ≠ some (JSONValue.number 2) := by
  refine ⟨rfl, ?_⟩
  intro h
  have h1 : jsonResolve docShadow (chars "a-b") = some (JSONValue.number 1) := rfl
  rw [h1] at h
  have h2 : (1 : Int) = 2 := JSONValue.number.inj (Option.some.inj h)
  exact absurd h2 (by decide)

/-- Claim C6: a Resolve call on the environment resolver consults the flag's
Envs list in declared order: when none of the listed variables is set it
returns the pair of no value and nil error, and when the list splits as
pre ++ e :: post with every variable of pre unset and e set to v — even when v
is the empty string — it returns v with nil error, without consulting the
variables after e. -/
theorem c6_envs_order (s : EnvState) (envm : EnvMap) (context : Context) (flag : Flag)
    (pre post : List Str) (e v : Str) :
    ((∀ x ∈ flag.tag.envs, osLookupEnv envm x = none) →
      (EnvResolver.resolve s envm context flag).2 = (none, none)) ∧
    (flag.tag.envs = pre ++ e :: post →
      (∀ x ∈ pre, osLookupEnv envm x = none) →
      osLookupEnv envm e = some v →
      (EnvResolver.resolve s envm context flag).2 = (some v, none)) := by
  constructor
  · intro h
    have hres : (EnvResolver.resolve s envm context flag).2
        = (lookupEnvs envm flag.tag.envs, none) := rfl
    rw [hres, lookupEnvs_none envm flag.tag.envs h]
  · intro hsplit hpre he
    have hres : (EnvResolver.resolve s envm context flag).2
        = (lookupEnvs envm flag.tag.envs, none) := rfl
    rw [hres, hsplit, lookupEnvs_first envm pre post e v hpre he]

/-- Claim C6 witness: with FOO unset and BAR set to the empty string, the flag
whose Envs list is FOO then BAR resolves to the empty string with nil error;
with the environment empty, the same flag resolves to no value with nil
error. -/
theorem c6_envs_order_witness :
    (EnvResolver.resolve EnvResolver.init [(chars "BAR", chars "")] ⟨[]⟩ fooBarFlag).2
      = (some (chars ""), none) ∧
    (EnvResolver.resolve EnvResolver.init [] ⟨[]⟩ fooBarFlag).2 = (none, none) := by
  constructor
  · exact (c6_envs_order EnvResolver.init [(chars "BAR", chars "")] ⟨[]⟩ fooBarFlag
      [chars "FOO"] [] (chars "BAR") (chars "")).2 rfl (by decide) (by decide)
  · exact (c6_envs_order EnvResolver.init [] ⟨[]⟩ fooBarFlag [] [] [] []).1 (by decide)

/-- Claim C7: JSON-resolver construction forwards the eager decode outcome: a
decode failure becomes the construction error, with no resolver produced, and
a decode success yields the resolve closure over the decoded document together
with a nil error. -/
theorem c7_construction (d : Except Str (List (Str × JSONValue))) :
    (∀ e, d = Except.error e → JSON d = Except.error e) ∧
    (∀ values, d = Except.ok values →
      JSON d = Except.ok (fun flagName => jsonResolve values flagName)) := by
  constructor
  · intro e he
    subst he
    rfl
  · intro values hv
    subst hv
    rfl

/-- Claim C7 witness: construction from a failed decode returns that decode
error and no resolver, and construction from a successfully decoded empty
document returns the resolve closure and no error. -/
theorem c7_construction_witness :
    JSON (Except.error (chars "bad")) = Except.error (chars "bad") ∧
    JSON (Except.ok []) = Except.ok (fun flagName => jsonResolve [] flagName) :=
  ⟨(c7_construction (Except.error (chars "bad"))).1 (chars "bad") rfl,
   (c7_construction (Except.ok [])).2 [] rfl⟩

/-- Claim C8: the two derived lookup keys match the hand-computed reference:
the flag name "my-flag" yields the underscore form "my_flag" and the
camel-case form "myFlag", and "a-b-c" yields "a_b_c" and "aBC". -/
theorem c8_name_mapping :
    goReplaceAll '-' '_' (chars "my-flag") = chars "my_flag" ∧
    snakeCase (chars "my-flag") = some (chars "myFlag") ∧
    goReplaceAll '-' '_' (chars "a-b-c") = chars "a_b_c" ∧
    snakeCase (chars "a-b-c") = some (chars "aBC") :=
  ⟨rfl, rfl, rfl, rfl⟩

/-- Claim C9 counterexample: the name consisting of two hyphens contains an
empty segment between two hyphens — its split on '-' is three empty parts —
yet `snakeCase` does not complete on it: the joined string is empty, the Go
expression name[:1] is out of bounds, and the call panics. -/
theorem c9_counterexample :
    goSplit '-' (chars "--") = [[], [], []] ∧ snakeCase (chars "--") = none :=
  ⟨rfl, rfl⟩

/-- Claim C9 amended: for every flag name that contains an empty segment
between two hyphens and also at least one non-hyphen character, `snakeCase`
completes without crashing and produces a result — the zero-length tokens are
dropped by the split and join, and the final first-character access is in
bounds. -/
theorem c9_empty_segment_safe (name : Str)
    (_hseg : List.IsInfix ['-', '-'] name) (hch : ∃ c ∈ name, c ≠ '-') :
    (snakeCase name).isSome = true :=
  snakeCase_isSome hch

/-- Claim C9 witness: the name "a--b" contains an empty segment between two
hyphens and a non-hyphen character, and `snakeCase` produces a result on
it. -/
theorem c9_empty_segment_safe_witness : (snakeCase (chars "a--b")).isSome = true :=
  c9_empty_segment_safe (chars "a--b") ⟨['a'], ['b'], rfl⟩ (by decide)

/-- Claim C10: the final first-character access of `snakeCase` is in bounds
exactly when the flag name has a character other than '-': with such a
character both `snakeCase` and the JSON resolver produce a result on any
document, while for a name consisting solely of hyphens — including the empty
name — the joined string is empty, `snakeCase` panics on name[:1], and the
resolver call panics with it. -/
theorem c10_totality (values : List (Str × JSONValue)) (name : Str) :
    ((∃ c ∈ name, c ≠ '-') →
      (snakeCase name).isSome = true ∧ (jsonResolve values name).isSome = true) ∧
    ((∀ c ∈ name, c = '-') →
      snakeCase name = none ∧ jsonResolve values name = none) := by
  constructor
  · intro h
    have hs := snakeCase_isSome h
    exact ⟨hs, jsonResolve_isSome hs⟩
  · intro h
    have hs := snakeCase_none h
    exact ⟨hs, jsonResolve_none hs⟩

/-- Claim C10 witness: on the empty document, resolution of the name "a"
produces a result, while on the names consisting solely of hyphens — the empty
name, "-" and "--" — `snakeCase` and resolution panic. -/
theorem c10_totality_witness :
    (jsonResolve [] (chars "a")).isSome = true ∧
    (snakeCase (chars "") = none ∧ jsonResolve [] (chars "") = none) ∧
    (snakeCase (chars "-") = none ∧ jsonResolve [] (chars "-") = none) ∧
    (snakeCase (chars "--") = none ∧ jsonResolve [] (chars "--") = none) :=
  ⟨((c10_totality [] (chars "a")).1 (by decide)).2,
   (c10_totality [] (chars "")).2 (by decide),
   (c10_totality [] (chars "-")).2 (by decide),
   (c10_totality [] (chars "--")).2 (by decide)⟩

end Kong
